import Mathlib

/-!
Shallow embedding of the AT24C256 EEPROM paged-write storage driver
(`src/at24c256.c`, `include/at24c256.h`) and the flat file-index layer built
on top of it (`camera_data_write.c`, `camera_data_read.c`).

Modelling conventions:
* The EEPROM contents are a total function `Dev : Nat → Nat` from byte
  addresses to byte values; the I2C transport is modelled as perfect (every
  `read(2)`/`write(2)` on the channel transfers the requested byte count),
  which is the success path all round-trip claims quantify over.
* Machine integers are `Nat`/`Int`.  The C driver takes `uint16_t` addresses
  and lengths; theorems about multi-chunk writes carry the hypothesis
  `total_size ≤ 65536` (the spec's single 16-bit address space), under which
  the C `uint16_t` address arithmetic never wraps, so plain `Nat` addition
  is exact.
* Loops whose C termination argument is "the chunk size is at least 1" are
  written with an explicit fuel argument equal to the total byte count so
  that every definition reduces in the kernel; the driver entry points pass
  the exact fuel, and `0 < page_size` (a Device Configuration invariant in
  the spec) makes the fuel sufficient.
* Every channel interaction is recorded in an event trace (`Ev`), so
  "performs no transport I/O" is "the trace is `[]`".
-/

namespace AT24

/-- Byte-addressed device contents: address ↦ stored byte value. -/
def Dev : Type := Nat → Nat

/-- One observable interaction with the I2C channel or the clock, in order.
`i2cWrite bytes` is one `write(fd, …)` transaction (address pointer bytes
followed by payload bytes), `i2cRead n` is one `read(fd, …, n)`, and
`sleepMs ms` is the settle delay `usleep(ms * 1000)` after a write chunk. -/
inductive Ev where
  | i2cWrite (bytes : List Nat)
  | i2cRead (n : Nat)
  | sleepMs (ms : Nat)
deriving DecidableEq

/-- `at24c256_config_t`: `i2c_bus`, `device_addr`, `page_size` (u16),
`total_size` (u32), `write_delay_ms` (u16). -/
structure Config where
  i2c_bus : String
  device_addr : Nat
  page_size : Nat
  total_size : Nat
  write_delay_ms : Nat
deriving DecidableEq

/-- `struct at24c256_dev_s`: file descriptor, configuration copy,
`initialized` flag.  A C caller can hold a NULL or dangling handle; the
model's `Option Handle` covers NULL, and a torn-down handle is represented
by `initialized = false`. -/
structure Handle where
  fd : Int
  config : Config
  initialized : Bool
deriving DecidableEq

/-- `at24c256_err_t` error codes (`AT24C256_OK = 0` down to
`AT24C256_ERROR_TIMEOUT = -7`). -/
inductive Err where
  | ok
  | einit
  | ewrite
  | eread
  | eparam
  | ememory
  | ebusy
  | etimeout
deriving DecidableEq

/-- The integer value of each `at24c256_err_t` enumerator. -/
def errCode : Err → Int
  | .ok => 0
  | .einit => -1
  | .ewrite => -2
  | .eread => -3
  | .eparam => -4
  | .ememory => -5
  | .ebusy => -6
  | .etimeout => -7

/-- The `error_strings[]` table from `at24c256.c`, in order. -/
def error_strings : List String :=
  ["Success", "Initialization failed", "Write operation failed",
   "Read operation failed", "Invalid parameter", "Memory allocation failed",
   "Device busy", "Operation timeout"]

/-- `at24c256_strerror`: `index = -err`; out-of-range indices (negative or
`>= 8`) yield `"Unknown error"`, otherwise the table entry is returned. -/
def at24c256_strerror (err : Int) : String :=
  let index : Int := -err
  if index < 0 ∨ 8 ≤ index then "Unknown error"
  else error_strings.getD index.toNat "Unknown error"

/-- The description each in-range error code indexes in `error_strings`. -/
def errDescription : Err → String
  | .ok => "Success"
  | .einit => "Initialization failed"
  | .ewrite => "Write operation failed"
  | .eread => "Read operation failed"
  | .eparam => "Invalid parameter"
  | .ememory => "Memory allocation failed"
  | .ebusy => "Device busy"
  | .etimeout => "Operation timeout"

/-- `check_address_length`: a NULL or uninitialized handle yields
`AT24C256_ERROR_INIT`; `address + length > total_size` or `length == 0`
yield `AT24C256_ERROR_PARAM`.  (`address + length` is computed after C's
integer promotion to `int`, so the sum does not wrap; `Nat` addition is
exact.) -/
def check_address_length (h : Option Handle) (address length : Nat) : Err :=
  match h with
  | none => .einit
  | some hd =>
    if hd.initialized = false then .einit
    else if hd.config.total_size < address + length then .eparam
    else if length = 0 then .eparam
    else .ok

/-- The big-endian 2-byte address pointer `{addr >> 8, addr & 0xFF}` sent
before every transfer. -/
def addrBytes (a : Nat) : List Nat :=
  [a / 256 % 256, a % 256]

/-- Overwrite `data.length` bytes of the device starting at address `a`
(the effect of `memcpy` of a chunk into device storage). -/
def storeBytes (dev : Dev) (a : Nat) (data : List Nat) : Dev :=
  fun x => if a ≤ x ∧ x < a + data.length then data.getD (x - a) 0 else dev x

/-- The `length` bytes of the device starting at `address` (the result of
the two-step pointer-write/`read` protocol on a perfect channel). -/
def readBytes (dev : Dev) (address length : Nat) : List Nat :=
  (List.range length).map fun i => dev (address + i)

/-- The page-chunking loop of `at24c256_write`, with explicit fuel (the
loop runs at most `length` iterations because every chunk is nonempty when
`page_size > 0`).  Each step computes
`bytes_in_page = min remaining (page_size - current_addr % page_size)`,
transmits one `write` transaction of address pointer plus chunk bytes,
sleeps `write_delay_ms`, and advances.  The `sz = 0` fallthrough is
unreachable for `page_size > 0`. -/
def writeLoopAux (p w : Nat) : Nat → Dev → Nat → List Nat → Dev × List Ev
  | 0, dev, _, _ => (dev, [])
  | fuel + 1, dev, a, data =>
    if data.length = 0 then (dev, [])
    else
      let sz := min data.length (p - a % p)
      if sz = 0 then (dev, [])
      else
        let chunk := data.take sz
        let rest := writeLoopAux p w fuel (storeBytes dev a chunk) (a + sz) (data.drop sz)
        (rest.1, .i2cWrite (addrBytes a ++ chunk) :: .sleepMs w :: rest.2)

/-- The chunking loop of `at24c256_write` at its natural fuel. -/
def writeLoop (p w : Nat) (dev : Dev) (a : Nat) (data : List Nat) : Dev × List Ev :=
  writeLoopAux p w data.length dev a data

/-- The sequence of `(start address, size)` chunks `at24c256_write` emits
for a write of `len` bytes at address `a` (same recursion as
`writeLoopAux`, data dropped). -/
def writeChunksAux (p : Nat) : Nat → Nat → Nat → List (Nat × Nat)
  | 0, _, _ => []
  | fuel + 1, a, len =>
    if len = 0 then []
    else
      let sz := min len (p - a % p)
      if sz = 0 then []
      else (a, sz) :: writeChunksAux p fuel (a + sz) (len - sz)

/-- The chunk sequence of `at24c256_write` at its natural fuel. -/
def writeChunks (p a len : Nat) : List (Nat × Nat) :=
  writeChunksAux p len a len

/-- `at24c256_read`: validate, send the 2-byte address pointer, read
`length` bytes.  Returns the error code, the bytes delivered into the
caller's buffer, and the transport trace. -/
def at24c256_read (h : Option Handle) (dev : Dev) (address length : Nat) :
    Err × Option (List Nat) × List Ev :=
  match h with
  | none => (check_address_length none address length, none, [])
  | some hd =>
    let r := check_address_length (some hd) address length
    if r = .ok then
      (.ok, some (readBytes dev address length),
       [.i2cWrite (addrBytes address), .i2cRead length])
    else (r, none, [])

/-- `at24c256_write`: validate, then run the page-chunking loop.  Returns
the error code, the updated device contents, and the transport trace. -/
def at24c256_write (h : Option Handle) (dev : Dev) (address : Nat) (data : List Nat) :
    Err × Dev × List Ev :=
  match h with
  | none => (check_address_length none address data.length, dev, [])
  | some hd =>
    let r := check_address_length (some hd) address data.length
    if r = .ok then
      let wr := writeLoop hd.config.page_size hd.config.write_delay_ms dev address data
      (.ok, wr.1, wr.2)
    else (r, dev, [])

/-- `at24c256_erase`: validate, then delegate to `at24c256_write` with a
buffer of `length` bytes all `0xFF`.  (The transient `malloc` of that
buffer is assumed to succeed.) -/
def at24c256_erase (h : Option Handle) (dev : Dev) (address length : Nat) :
    Err × Dev × List Ev :=
  let r := check_address_length h address length
  if r = .ok then at24c256_write h dev address (List.replicate length 255)
  else (r, dev, [])

/-- `internal_wait_ready`'s polling loop: one probe read per elapsed
millisecond `t = 0, 1, 2, …`; success as soon as a probe succeeds,
`AT24C256_ERROR_TIMEOUT` once the elapsed time reaches `timeout_ms`.
`ready t` abstracts whether the probe at elapsed time `t` succeeds.  The
fuel `timeout_ms + 1` covers every reachable iteration. -/
def waitPollAux (ready : Nat → Bool) (timeout_ms : Nat) : Nat → Nat → Err
  | 0, _ => .etimeout
  | fuel + 1, t =>
    if ready t then .ok
    else if timeout_ms ≤ t then .etimeout
    else waitPollAux ready timeout_ms fuel (t + 1)

/-- `internal_wait_ready` at its natural fuel. -/
def internal_wait_ready (ready : Nat → Bool) (timeout_ms : Nat) : Err :=
  waitPollAux ready timeout_ms (timeout_ms + 1) 0

/-- `at24c256_wait_ready`: NULL or uninitialized handle yields
`AT24C256_ERROR_INIT`, otherwise the polling loop runs. -/
def at24c256_wait_ready (h : Option Handle) (ready : Nat → Bool) (timeout_ms : Nat) : Err :=
  match h with
  | none => .einit
  | some hd =>
    if hd.initialized = false then .einit
    else internal_wait_ready ready timeout_ms

/-- `true` exactly when the handle is NULL or not initialized (never
initialized, or already torn down by `at24c256_deinit`). -/
def handleInvalid (h : Option Handle) : Bool :=
  match h with
  | none => true
  | some hd => !hd.initialized

/-- `AT24C256_DEFAULT_CONFIG`. -/
def defaultConfig : Config :=
  { i2c_bus := "/dev/i2c-5", device_addr := 0x50, page_size := 64,
    total_size := 32768, write_delay_ms := 5 }

/-- An initialized handle carrying the default AT24C256 configuration. -/
def hdOk : Handle :=
  { fd := 3, config := defaultConfig, initialized := true }

/-- A live handle carrying the default AT24C256 configuration. -/
def okHandle : Option Handle :=
  some hdOk

/-- All-zero device contents, used as a concrete starting state. -/
def dev0 : Dev := fun _ => 0

/-! ## File index layer (`camera_data_write.c` / `camera_data_read.c`)

Blobs and file names are byte lists.  Host-side collaborators (directory
enumeration, `fopen`/`fread`, `malloc` of transient buffers) are assumed to
succeed: the claims quantify over the blob contents they deliver.  The
struct layout constants are the x86-64 sizes the programs use:
`sizeof(index_header_t) = 16`, `sizeof(file_index_t) = 70` (69 payload
bytes plus one alignment padding byte, modelled as 0). -/

/-- `MAX_FILE_SIZE = 32 * 1024`. -/
def MAX_FILE_SIZE : Nat := 32 * 1024

/-- `MAX_FILES = 16`. -/
def MAX_FILES : Nat := 16

/-- `sizeof(index_header_t)`. -/
def HEADER_SIZE : Nat := 16

/-- `sizeof(file_index_t)`. -/
def ENTRY_SIZE : Nat := 70

/-- `EEPROM_START_ADDRESS + sizeof(index_header_t) + MAX_FILES * sizeof(file_index_t)`,
the first payload address used by `process_camera_parameters`. -/
def DATA_START : Nat := HEADER_SIZE + MAX_FILES * ENTRY_SIZE

/-- `file_index_t`: truncated file name, payload address, payload size,
XOR checksum. -/
structure FileIndex where
  name : List Nat
  address : Nat
  size : Nat
  checksum : Nat
deriving DecidableEq

/-- `calculate_checksum`: fold every byte with exclusive-or, seed 0; the
accumulator is a `uint8_t`, hence the reduction modulo 256. -/
def calculate_checksum (data : List Nat) : Nat :=
  data.foldl (fun c b => (c ^^^ b) % 256) 0

/-- `write_file_to_eeprom` (EEPROM-facing part): reject blobs larger than
`MAX_FILE_SIZE`, write the blob with `at24c256_write`, and on success
produce the entry (`strncpy` keeps at most 63 name bytes;
`address`/`size` are stored in `uint16_t` fields). -/
def write_file_to_eeprom (dev : Dev) (address : Nat) (name data : List Nat) :
    Option (Dev × FileIndex) :=
  if MAX_FILE_SIZE < data.length then none
  else
    match at24c256_write okHandle dev address data with
    | (.ok, dev', _) =>
      some (dev', { name := name.take 63, address := address % 65536,
                    size := data.length % 65536,
                    checksum := calculate_checksum data })
    | _ => none

/-- The loop of `process_camera_parameters`: write each blob at the next
free address; a blob whose `write_file_to_eeprom` fails is skipped (the
loop continues with the next blob and the address does not advance). -/
def process_files (dev : Dev) : Nat → List (List Nat × List Nat) → Dev × List FileIndex
  | _, [] => (dev, [])
  | addr, (name, data) :: rest =>
    match write_file_to_eeprom dev addr name data with
    | some (dev', fi) =>
      let r := process_files dev' (addr + fi.size) rest
      (r.1, fi :: r.2)
    | none => process_files dev addr rest

/-- Little-endian 2-byte encoding of a `uint16_t` field. -/
def le16 (n : Nat) : List Nat :=
  [n % 256, n / 256 % 256]

/-- The 16 bytes of `index_header_t` written by `write_file_index`:
magic `"CAM\0"`, version 1, file count, aggregate payload size
(`uint16_t` accumulation), 8 reserved zero bytes. -/
def headerBytes (files : List FileIndex) : List Nat :=
  [0x43, 0x41, 0x4D, 0] ++ [1] ++ [files.length % 256] ++
  le16 ((files.map (·.size)).sum % 65536) ++ List.replicate 8 0

/-- The 70 bytes of one `file_index_t` record: NUL-padded 64-byte name,
address, size, checksum, one alignment padding byte (modelled 0). -/
def entryBytes (fi : FileIndex) : List Nat :=
  (fi.name.take 63 ++ List.replicate (64 - (fi.name.take 63).length) 0) ++
  le16 fi.address ++ le16 fi.size ++ [fi.checksum % 256] ++ [0]

/-- The entry loop of `write_file_index`: serialize each entry at
consecutive `ENTRY_SIZE` offsets; any driver failure aborts. -/
def write_entries (dev : Dev) : Nat → List FileIndex → Option Dev
  | _, [] => some dev
  | addr, fi :: rest =>
    match at24c256_write okHandle dev addr (entryBytes fi) with
    | (.ok, dev', _) => write_entries dev' (addr + ENTRY_SIZE) rest
    | _ => none

/-- `write_file_index`: serialize the header at address 0, then the
entries from `sizeof(header)` on. -/
def write_file_index (dev : Dev) (files : List FileIndex) : Option Dev :=
  match at24c256_write okHandle dev 0 (headerBytes files) with
  | (.ok, dev', _) => write_entries dev' HEADER_SIZE files
  | _ => none

/-- The end-to-end index-writing operation of `camera_data_write.c`'s
`main`: process every blob, then write the directory only when at least
one blob was written (`processed_count > 0`); otherwise — including on an
empty input list — the program reports failure and writes no directory.
Returns the final device contents and the entry count on success. -/
def write_files (dev : Dev) (blobs : List (List Nat × List Nat)) : Option (Dev × Nat) :=
  let r := process_files dev DATA_START blobs
  if 0 < r.2.length then
    match write_file_index r.1 r.2 with
    | some dev2 => some (dev2, r.2.length)
    | none => none
  else none

/-- The outcome of `read_file_from_eeprom` for one entry (host-side output
file writing assumed to succeed). -/
inductive FileReadResult where
  | success (data : List Nat)
  | checksumError
  | readError
deriving DecidableEq

/-- `read_file_from_eeprom` (EEPROM-facing part): read `size` bytes at
`address`; a driver failure is fatal for this file, a checksum mismatch
fails this file with the checksum error, otherwise the bytes are
returned. -/
def read_file_from_eeprom (dev : Dev) (fi : FileIndex) : FileReadResult :=
  match at24c256_read okHandle dev fi.address fi.size with
  | (.ok, some buf, _) =>
    if calculate_checksum buf = fi.checksum then .success buf else .checksumError
  | _ => .readError

/-- The per-entry loop of `camera_data_read.c`'s `main`: each entry is
read independently; one file's failure does not stop the rest. -/
def read_files (dev : Dev) (entries : List FileIndex) : List FileReadResult :=
  entries.map (read_file_from_eeprom dev)

/-- `success_count`: the number of entries read and verified
successfully. -/
def successCount (rs : List FileReadResult) : Nat :=
  rs.countP fun r => match r with | .success _ => true | _ => false

/-- A readiness schedule on which no probe ever succeeds. -/
def neverReady : Nat → Bool := fun _ => false

/-- The device with the byte at address `pos` replaced by `b` (a
single-byte on-device corruption). -/
def corruptAt (dev : Dev) (pos b : Nat) : Dev :=
  fun x => if x = pos then b else dev x

/-- Total size of a chunk list. -/
def sumSizes (cs : List (Nat × Nat)) : Nat :=
  (cs.map Prod.snd).sum

/-- `true` iff the chunk list starts at `a`, every chunk is nonempty, and
each chunk begins exactly where the previous one ended (no gap, no
overlap, strictly increasing start addresses). -/
def chunksContiguousB (a : Nat) : List (Nat × Nat) → Bool
  | [] => true
  | (s, sz) :: rest => s == a && decide (0 < sz) && chunksContiguousB (s + sz) rest

/-- The transport trace the chunk loop emits: per chunk one `write`
transaction (address pointer + that chunk's slice of `data`, which starts
at offset `c.1 - a`) followed by the settle delay. -/
def chunkTrace (w a : Nat) (data : List Nat) : List (Nat × Nat) → List Ev
  | [] => []
  | c :: cs =>
    .i2cWrite (addrBytes c.1 ++ (data.drop (c.1 - a)).take c.2) ::
      .sleepMs w :: chunkTrace w a data cs

/-- Issue one `at24c256_write` per piece, at consecutive addresses: the
"one write per piece" reference the chunk-splitting claim compares
against. -/
def multiWrite (h : Option Handle) : Dev → Nat → List (List Nat) → Dev
  | dev, _, [] => dev
  | dev, a, piece :: rest =>
    multiWrite h ((at24c256_write h dev a piece).2.1) (a + piece.length) rest

/-- `true` iff each piece, laid out consecutively from `a`, stays within
the page containing its start address. -/
def piecesWithinPages (p : Nat) : Nat → List (List Nat) → Bool
  | _, [] => true
  | a, piece :: rest =>
    decide (a % p + piece.length ≤ p) && piecesWithinPages p (a + piece.length) rest

/-! ### Helper lemmas about `storeBytes` and `readBytes` -/

theorem storeBytes_nil (dev : Dev) (a : Nat) : storeBytes dev a [] = dev := by
  funext x
  simp only [storeBytes, List.length_nil, Nat.add_zero]
  rw [if_neg (by omega)]

theorem storeBytes_append (dev : Dev) (a : Nat) (d1 d2 : List Nat) :
    storeBytes (storeBytes dev a d1) (a + d1.length) d2 = storeBytes dev a (d1 ++ d2) := by
  funext x
  simp only [storeBytes, List.length_append]
  by_cases h2 : a + d1.length ≤ x ∧ x < a + d1.length + d2.length
  · rw [if_pos h2, if_pos (by omega : a ≤ x ∧ x < a + (d1.length + d2.length))]
    rw [List.getD_append_right _ _ _ _ (by omega)]
    congr 1
    omega
  · rw [if_neg h2]
    by_cases h1 : a ≤ x ∧ x < a + d1.length
    · rw [if_pos h1, if_pos (by omega : a ≤ x ∧ x < a + (d1.length + d2.length)),
        List.getD_append _ _ _ _ (by omega)]
    · rw [if_neg h1, if_neg (by omega)]

theorem map_getD_range (l : List Nat) :
    (List.range l.length).map (fun i => l.getD i 0) = l := by
  induction l with
  | nil => simp
  | cons x xs ih =>
    rw [List.length_cons, List.range_succ_eq_map, List.map_cons, List.map_map]
    congr 1

theorem readBytes_storeBytes (dev : Dev) (a : Nat) (d : List Nat) :
    readBytes (storeBytes dev a d) a d.length = d := by
  have h : ((List.range d.length).map fun i => storeBytes dev a d (a + i))
      = (List.range d.length).map fun i => d.getD i 0 := by
    apply List.map_congr_left
    intro i hi
    rw [List.mem_range] at hi
    simp only [storeBytes]
    rw [if_pos ⟨Nat.le_add_right _ _, by omega⟩]
    congr 1
    omega
  unfold readBytes
  rw [h, map_getD_range]

theorem readBytes_congr {dev dev' : Dev} (addr len : Nat)
    (h : ∀ i, i < len → dev (addr + i) = dev' (addr + i)) :
    readBytes dev addr len = readBytes dev' addr len := by
  apply List.map_congr_left
  intro i hi
  exact h i (List.mem_range.mp hi)

theorem readBytes_length (dev : Dev) (addr len : Nat) :
    (readBytes dev addr len).length = len := by
  simp [readBytes]

/-! ### Helper lemmas about the chunk loop -/

theorem check_ok (hd : Handle) (a len : Nat) (hinit : hd.initialized = true)
    (hrange : a + len ≤ hd.config.total_size) (hlen : 0 < len) :
    check_address_length (some hd) a len = .ok := by
  simp only [check_address_length]
  rw [if_neg (by simp [hinit]), if_neg (by omega), if_neg (by omega)]

theorem writeLoopAux_fst (p w : Nat) (hp : 0 < p) :
    ∀ fuel dev a (data : List Nat), data.length ≤ fuel →
      (writeLoopAux p w fuel dev a data).1 = storeBytes dev a data := by
  intro fuel
  induction fuel with
  | zero =>
    intro dev a data h
    have hnil : data = [] := List.eq_nil_of_length_eq_zero (Nat.le_zero.mp h)
    subst hnil
    rw [storeBytes_nil]
    rfl
  | succ n ih =>
    intro dev a data h
    by_cases hd0 : data.length = 0
    · have hnil : data = [] := List.eq_nil_of_length_eq_zero hd0
      subst hnil
      rw [storeBytes_nil]
      rfl
    · have hmod : a % p < p := Nat.mod_lt a hp
      have hsz : min data.length (p - a % p) ≠ 0 := by omega
      unfold writeLoopAux
      rw [if_neg hd0, if_neg hsz]
      simp only
      rw [ih _ _ _ (by simp only [List.length_drop]; omega)]
      have hlt : (data.take (min data.length (p - a % p))).length
          = min data.length (p - a % p) := by
        simp only [List.length_take]
        omega
      rw [show a + min data.length (p - a % p)
            = a + (data.take (min data.length (p - a % p))).length by rw [hlt]]
      rw [storeBytes_append, List.take_append_drop]

theorem writeChunksAux_start_le (p : Nat) :
    ∀ fuel a len c, c ∈ writeChunksAux p fuel a len → a ≤ c.1 := by
  intro fuel
  induction fuel with
  | zero => intro a len c hc; simp [writeChunksAux] at hc
  | succ n ih =>
    intro a len c hc
    unfold writeChunksAux at hc
    by_cases h0 : len = 0
    · rw [if_pos h0] at hc; simp at hc
    · rw [if_neg h0] at hc
      by_cases hsz : min len (p - a % p) = 0
      · rw [if_pos hsz] at hc; simp at hc
      · rw [if_neg hsz] at hc
        rcases List.mem_cons.mp hc with h | h
        · subst h; exact Nat.le_refl _
        · exact Nat.le_trans (Nat.le_add_right a _) (ih _ _ _ h)

theorem chunkTrace_shift (w sz a : Nat) (data : List Nat) :
    ∀ cs, (∀ c ∈ cs, a + sz ≤ c.1) →
      chunkTrace w (a + sz) (data.drop sz) cs = chunkTrace w a data cs := by
  intro cs
  induction cs with
  | nil => intro _; rfl
  | cons c cs ih =>
    intro h
    have hc := h c (List.mem_cons_self _ _)
    unfold chunkTrace
    rw [ih (fun d hd => h d (List.mem_cons_of_mem _ hd))]
    have harg : (List.drop sz data).drop (c.1 - (a + sz)) = data.drop (c.1 - a) := by
      rw [List.drop_drop]
      congr 1
      omega
    rw [harg]

theorem writeLoopAux_snd (p w : Nat) (hp : 0 < p) :
    ∀ fuel dev a (data : List Nat), data.length ≤ fuel →
      (writeLoopAux p w fuel dev a data).2 =
        chunkTrace w a data (writeChunksAux p fuel a data.length) := by
  intro fuel
  induction fuel with
  | zero =>
    intro dev a data h
    rfl
  | succ n ih =>
    intro dev a data h
    by_cases hd0 : data.length = 0
    · unfold writeLoopAux writeChunksAux
      rw [if_pos hd0, if_pos hd0]
      rfl
    · have hmod : a % p < p := Nat.mod_lt a hp
      have hsz : min data.length (p - a % p) ≠ 0 := by omega
      unfold writeLoopAux writeChunksAux
      rw [if_neg hd0, if_neg hsz, if_neg hd0, if_neg hsz]
      simp only
      rw [ih _ _ _ (by simp only [List.length_drop]; omega)]
      rw [List.length_drop]
      simp only [chunkTrace]
      rw [← chunkTrace_shift w (min data.length (p - a % p)) a data
        (writeChunksAux p n (a + min data.length (p - a % p))
          (data.length - min data.length (p - a % p)))
        (fun c hc => writeChunksAux_start_le p _ _ _ c hc)]
      simp [Nat.sub_self]

theorem writeChunksAux_sum (p : Nat) (hp : 0 < p) :
    ∀ fuel a len, len ≤ fuel → sumSizes (writeChunksAux p fuel a len) = len := by
  intro fuel
  induction fuel with
  | zero =>
    intro a len h
    have h0 : len = 0 := Nat.le_zero.mp h
    subst h0
    rfl
  | succ n ih =>
    intro a len h
    by_cases h0 : len = 0
    · subst h0
      rfl
    · have hmod : a % p < p := Nat.mod_lt a hp
      have hsz : min len (p - a % p) ≠ 0 := by omega
      unfold writeChunksAux
      rw [if_neg h0, if_neg hsz]
      simp only [sumSizes, List.map_cons, List.sum_cons]
      have := ih (a + min len (p - a % p)) (len - min len (p - a % p)) (by omega)
      simp only [sumSizes] at this
      rw [this]
      omega

theorem writeChunksAux_contiguous (p : Nat) (hp : 0 < p) :
    ∀ fuel a len, len ≤ fuel → chunksContiguousB a (writeChunksAux p fuel a len) = true := by
  intro fuel
  induction fuel with
  | zero =>
    intro a len h
    rfl
  | succ n ih =>
    intro a len h
    by_cases h0 : len = 0
    · unfold writeChunksAux
      rw [if_pos h0]
      rfl
    · have hmod : a % p < p := Nat.mod_lt a hp
      have hsz : min len (p - a % p) ≠ 0 := by omega
      unfold writeChunksAux
      rw [if_neg h0, if_neg hsz]
      unfold chunksContiguousB
      rw [ih (a + min len (p - a % p)) (len - min len (p - a % p)) (by omega)]
      simp
      omega

theorem writeChunksAux_decomp (p : Nat) (hp : 0 < p) :
    ∀ fuel a len pre c post, len ≤ fuel →
      writeChunksAux p fuel a len = pre ++ c :: post →
      c.1 = a + sumSizes pre ∧
      c.2 = min (len - sumSizes pre) (p - c.1 % p) ∧
      0 < c.2 ∧ c.1 % p + c.2 ≤ p := by
  intro fuel
  induction fuel with
  | zero =>
    intro a len pre c post _ heq
    rw [show writeChunksAux p 0 a len = [] from rfl] at heq
    exact absurd heq.symm (List.append_ne_nil_of_right_ne_nil pre (List.cons_ne_nil c post))
  | succ n ih =>
    intro a len pre c post h heq
    by_cases h0 : len = 0
    · unfold writeChunksAux at heq
      rw [if_pos h0] at heq
      exact absurd heq.symm (List.append_ne_nil_of_right_ne_nil pre (List.cons_ne_nil c post))
    · have hmod : a % p < p := Nat.mod_lt a hp
      have hsz : min len (p - a % p) ≠ 0 := by omega
      unfold writeChunksAux at heq
      rw [if_neg h0, if_neg hsz] at heq
      match pre, heq with
      | [], heq =>
        have hc : c = (a, min len (p - a % p)) := (List.cons_eq_cons.mp heq).1.symm
        subst hc
        refine ⟨by simp [sumSizes], by simp [sumSizes], by omega, by simp; omega⟩
      | q :: pre', heq =>
        have hq : q = (a, min len (p - a % p)) := (List.cons_eq_cons.mp heq).1.symm
        have htail : writeChunksAux p n (a + min len (p - a % p)) (len - min len (p - a % p))
            = pre' ++ c :: post := (List.cons_eq_cons.mp heq).2
        obtain ⟨h1, h2, h3, h4⟩ := ih _ _ _ _ _ (by omega) htail
        subst hq
        refine ⟨?_, ?_, h3, h4⟩
        · rw [h1]
          simp only [sumSizes, List.map_cons, List.sum_cons]
          omega
        · rw [h2]
          congr 1
          simp only [sumSizes, List.map_cons, List.sum_cons]
          omega

/-- The success path of `at24c256_write`: under an initialized handle, a
positive page size and a valid range, the write succeeds, the device ends
up with the data stored at the requested range, and the transport carries
exactly the chunk transactions. -/
theorem at24c256_write_ok (hd : Handle) (dev : Dev) (a : Nat) (data : List Nat)
    (hinit : hd.initialized = true) (hp : 0 < hd.config.page_size)
    (hrange : a + data.length ≤ hd.config.total_size) (hlen : 0 < data.length) :
    at24c256_write (some hd) dev a data =
      (.ok, storeBytes dev a data,
       chunkTrace hd.config.write_delay_ms a data
         (writeChunks hd.config.page_size a data.length)) := by
  simp only [at24c256_write]
  rw [check_ok hd a data.length hinit hrange hlen, if_pos rfl]
  unfold writeLoop writeChunks
  rw [writeLoopAux_fst _ _ hp _ _ _ _ (Nat.le_refl _),
    writeLoopAux_snd _ _ hp _ _ _ _ (Nat.le_refl _)]

/-- The success path of `at24c256_read`: under an initialized handle and a
valid range, the read succeeds and delivers the device bytes of the
range. -/
theorem at24c256_read_ok (hd : Handle) (dev : Dev) (a len : Nat)
    (hinit : hd.initialized = true)
    (hrange : a + len ≤ hd.config.total_size) (hlen : 0 < len) :
    at24c256_read (some hd) dev a len =
      (.ok, some (readBytes dev a len), [.i2cWrite (addrBytes a), .i2cRead len]) := by
  simp only [at24c256_read]
  rw [check_ok hd a len hinit hrange hlen, if_pos rfl]

end AT24

namespace AT24

/-- C1: on an initialized handle with the spec's configuration invariants
(`0 < page_size`, capacity within the 16-bit address space) and a valid
range (`address + length ≤ total_size`, `length > 0`), `at24c256_write`
succeeds and a subsequent `at24c256_read` over the same range succeeds and
returns exactly the bytes that were written. -/
theorem write_read_roundtrip (hd : Handle) (dev : Dev) (a : Nat) (data : List Nat)
    (hinit : hd.initialized = true)
    (hp : 0 < hd.config.page_size)
    (_hts : hd.config.total_size ≤ 65536)
    (hrange : a + data.length ≤ hd.config.total_size)
    (hlen : 0 < data.length) :
    (at24c256_write (some hd) dev a data).1 = .ok ∧
    (at24c256_read (some hd) ((at24c256_write (some hd) dev a data).2.1) a data.length).1
      = .ok ∧
    (at24c256_read (some hd) ((at24c256_write (some hd) dev a data).2.1) a data.length).2.1
      = some data := by
  rw [at24c256_write_ok hd dev a data hinit hp hrange hlen]
  simp only
  rw [at24c256_read_ok hd _ a data.length hinit hrange hlen]
  exact ⟨by simp, by simp, by simp [readBytes_storeBytes]⟩

/-- C1 witness: round trip of three bytes at address 100 on the default
configuration. -/
theorem write_read_roundtrip_witness :
    (hdOk.initialized = true ∧ 0 < hdOk.config.page_size ∧
     hdOk.config.total_size ≤ 65536 ∧
     100 + [10, 20, 30].length ≤ hdOk.config.total_size ∧ 0 < [10, 20, 30].length) ∧
    ((at24c256_write (some hdOk) dev0 100 [10, 20, 30]).1 = .ok ∧
     (at24c256_read (some hdOk) ((at24c256_write (some hdOk) dev0 100 [10, 20, 30]).2.1)
        100 [10, 20, 30].length).1 = .ok ∧
     (at24c256_read (some hdOk) ((at24c256_write (some hdOk) dev0 100 [10, 20, 30]).2.1)
        100 [10, 20, 30].length).2.1 = some [10, 20, 30]) :=
  ⟨by decide,
   write_read_roundtrip hdOk dev0 100 [10, 20, 30] (by decide) (by decide) (by decide)
     (by decide) (by decide)⟩

/-- C7: on an initialized handle, a call with `address + length >
total_size` or `length == 0` returns `AT24C256_ERROR_PARAM` from each of
`at24c256_read`, `at24c256_write` and `at24c256_erase`, with no transport
event emitted and the device contents unchanged. -/
theorem invalid_range_rejected (hd : Handle) (dev : Dev) (a len : Nat) (data : List Nat)
    (hinit : hd.initialized = true)
    (hdata : data.length = len)
    (hbad : hd.config.total_size < a + len ∨ len = 0) :
    at24c256_read (some hd) dev a len = (.eparam, none, []) ∧
    at24c256_write (some hd) dev a data = (.eparam, dev, []) ∧
    at24c256_erase (some hd) dev a len = (.eparam, dev, []) := by
  have hchk : check_address_length (some hd) a len = .eparam := by
    simp only [check_address_length]
    rw [if_neg (by simp [hinit])]
    rcases hbad with hb | hb
    · rw [if_pos hb]
    · by_cases hr : hd.config.total_size < a + len
      · rw [if_pos hr]
      · rw [if_neg hr, if_pos hb]
  refine ⟨?_, ?_, ?_⟩
  · simp only [at24c256_read]
    rw [hchk, if_neg (by decide)]
  · simp only [at24c256_write, hdata]
    rw [hchk, if_neg (by decide)]
  · simp only [at24c256_erase]
    rw [hchk, if_neg (by decide)]

/-- C7 witness: one byte just past the end of the 32768-byte device. -/
theorem invalid_range_rejected_witness :
    (hdOk.initialized = true ∧ [5].length = 1 ∧
     (hdOk.config.total_size < 32768 + 1 ∨ 1 = 0)) ∧
    (at24c256_read (some hdOk) dev0 32768 1 = (.eparam, none, []) ∧
     at24c256_write (some hdOk) dev0 32768 [5] = (.eparam, dev0, []) ∧
     at24c256_erase (some hdOk) dev0 32768 1 = (.eparam, dev0, [])) :=
  ⟨⟨rfl, rfl, Or.inl (by decide)⟩,
   invalid_range_rejected hdOk dev0 32768 1 [5] rfl rfl (Or.inl (by decide))⟩

/-- C9: `at24c256_erase` is literally `at24c256_write` of a buffer of
`length` bytes all `0xFF` over the same range, and on a valid range a
subsequent `at24c256_read` of that range returns all `0xFF` bytes. -/
theorem erase_spec (hd : Handle) (dev : Dev) (a len : Nat)
    (hinit : hd.initialized = true)
    (hp : 0 < hd.config.page_size)
    (_hts : hd.config.total_size ≤ 65536)
    (hrange : a + len ≤ hd.config.total_size)
    (hlen : 0 < len) :
    at24c256_erase (some hd) dev a len
      = at24c256_write (some hd) dev a (List.replicate len 255) ∧
    (at24c256_read (some hd) ((at24c256_erase (some hd) dev a len).2.1) a len).1 = .ok ∧
    (at24c256_read (some hd) ((at24c256_erase (some hd) dev a len).2.1) a len).2.1
      = some (List.replicate len 255) := by
  have herase : at24c256_erase (some hd) dev a len
      = at24c256_write (some hd) dev a (List.replicate len 255) := by
    simp only [at24c256_erase]
    rw [check_ok hd a len hinit hrange hlen, if_pos rfl]
  have hwr : at24c256_write (some hd) dev a (List.replicate len 255)
      = (.ok, storeBytes dev a (List.replicate len 255),
         chunkTrace hd.config.write_delay_ms a (List.replicate len 255)
           (writeChunks hd.config.page_size a (List.replicate len 255).length)) :=
    at24c256_write_ok hd dev a (List.replicate len 255) hinit hp
      (by rw [List.length_replicate]; exact hrange)
      (by rw [List.length_replicate]; exact hlen)
  have hrb : readBytes (storeBytes dev a (List.replicate len 255)) a len
      = List.replicate len 255 := by
    have h := readBytes_storeBytes dev a (List.replicate len 255)
    rw [List.length_replicate] at h
    exact h
  refine ⟨herase, ?_, ?_⟩
  · rw [herase, hwr]
    simp only
    rw [at24c256_read_ok hd _ a len hinit hrange hlen]
  · rw [herase, hwr]
    simp only
    rw [at24c256_read_ok hd _ a len hinit hrange hlen]
    simp only
    rw [hrb]

/-- C9 witness: erasing three bytes at address 0 on the default
configuration. -/
theorem erase_spec_witness :
    (hdOk.initialized = true ∧ 0 < hdOk.config.page_size ∧
     hdOk.config.total_size ≤ 65536 ∧ 0 + 3 ≤ hdOk.config.total_size ∧ 0 < 3) ∧
    (at24c256_erase (some hdOk) dev0 0 3
       = at24c256_write (some hdOk) dev0 0 (List.replicate 3 255) ∧
     (at24c256_read (some hdOk) ((at24c256_erase (some hdOk) dev0 0 3).2.1) 0 3).1 = .ok ∧
     (at24c256_read (some hdOk) ((at24c256_erase (some hdOk) dev0 0 3).2.1) 0 3).2.1
       = some (List.replicate 3 255)) :=
  ⟨⟨rfl, by decide, by decide, by decide, by decide⟩,
   erase_spec hdOk dev0 0 3 rfl (by decide) (by decide) (by decide) (by decide)⟩

/-- `multiWrite` over pieces whose concatenation fits the device equals a
single plain store of the concatenation (an empty piece contributes
nothing: its `at24c256_write` fails the `length == 0` check and leaves
the device untouched). -/
theorem multiWrite_eq (hd : Handle) (hinit : hd.initialized = true)
    (hp : 0 < hd.config.page_size) :
    ∀ (pieces : List (List Nat)) (dev : Dev) (a : Nat),
      a + pieces.flatten.length ≤ hd.config.total_size →
      multiWrite (some hd) dev a pieces = storeBytes dev a pieces.flatten := by
  intro pieces
  induction pieces with
  | nil =>
    intro dev a _
    rw [show ([] : List (List Nat)).flatten = [] from rfl, storeBytes_nil]
    rfl
  | cons piece rest ih =>
    intro dev a hb
    have hflat : (piece :: rest).flatten = piece ++ rest.flatten := rfl
    rw [hflat] at hb ⊢
    rw [List.length_append] at hb
    unfold multiWrite
    by_cases h0 : piece.length = 0
    · have hnil : piece = [] := List.eq_nil_of_length_eq_zero h0
      subst hnil
      have hchk : check_address_length (some hd) a ([] : List Nat).length = .eparam := by
        simp only [check_address_length, List.length_nil]
        rw [if_neg (by simp [hinit])]
        by_cases hr : hd.config.total_size < a + 0
        · rw [if_pos hr]
        · rw [if_neg hr]
          simp
      have hw : (at24c256_write (some hd) dev a []).2.1 = dev := by
        simp only [at24c256_write]
        rw [hchk, if_neg (by decide)]
      rw [hw]
      rw [show ([] : List Nat) ++ rest.flatten = rest.flatten from rfl]
      rw [show a + ([] : List Nat).length = a from rfl]
      exact ih dev a (by simpa using hb)
    · rw [at24c256_write_ok hd dev a piece hinit hp (by omega) (by omega)]
      simp only
      rw [ih _ (a + piece.length) (by omega)]
      rw [storeBytes_append]

/-- C2: a single `at24c256_write` whose range spans page boundaries leaves
the device bytes identical to issuing the same data as a sequence of
separate `at24c256_write` calls that each stay within one page — the chunk
splitting is invisible to the caller. -/
theorem write_page_split_equiv (hd : Handle) (dev : Dev) (a : Nat)
    (pieces : List (List Nat))
    (hinit : hd.initialized = true)
    (hp : 0 < hd.config.page_size)
    (_hts : hd.config.total_size ≤ 65536)
    (hrange : a + pieces.flatten.length ≤ hd.config.total_size)
    (hlen : 0 < pieces.flatten.length)
    (_hpages : piecesWithinPages hd.config.page_size a pieces = true) :
    (at24c256_write (some hd) dev a pieces.flatten).2.1
      = multiWrite (some hd) dev a pieces := by
  rw [at24c256_write_ok hd dev a pieces.flatten hinit hp hrange hlen]
  rw [multiWrite_eq hd hinit hp pieces dev a hrange]

/-- C2 witness: the spec's example — page size 64, start address 60,
16 bytes — split into the two within-page pieces of 4 and 12 bytes. -/
theorem write_page_split_equiv_witness :
    (hdOk.initialized = true ∧ 0 < hdOk.config.page_size ∧
     hdOk.config.total_size ≤ 65536 ∧
     60 + [[1, 2, 3, 4], [5, 6, 7, 8, 9, 10, 11, 12, 13, 14, 15, 16]].flatten.length
       ≤ hdOk.config.total_size ∧
     0 < [[1, 2, 3, 4], [5, 6, 7, 8, 9, 10, 11, 12, 13, 14, 15, 16]].flatten.length ∧
     piecesWithinPages hdOk.config.page_size 60
       [[1, 2, 3, 4], [5, 6, 7, 8, 9, 10, 11, 12, 13, 14, 15, 16]] = true) ∧
    (at24c256_write (some hdOk) dev0 60
        [[1, 2, 3, 4], [5, 6, 7, 8, 9, 10, 11, 12, 13, 14, 15, 16]].flatten).2.1
      = multiWrite (some hdOk) dev0 60
          [[1, 2, 3, 4], [5, 6, 7, 8, 9, 10, 11, 12, 13, 14, 15, 16]] :=
  ⟨by decide,
   write_page_split_equiv hdOk dev0 60
     [[1, 2, 3, 4], [5, 6, 7, 8, 9, 10, 11, 12, 13, 14, 15, 16]]
     (by decide) (by decide) (by decide) (by decide) (by decide) (by decide)⟩

/-- C3: the chunk sequence of a valid `at24c256_write` is exactly the one
the page formula dictates — every chunk `c` (exhibited by a decomposition
`pre ++ c :: post`) starts where the previous chunks ended and has size
`min (remaining, page_size - start mod page_size)`, is nonempty, and never
crosses the page boundary; the chunks are contiguous (strictly increasing
start addresses, no gap, no overlap) and cover exactly `data.length`
bytes; and the transport trace is one transaction per chunk, each followed
by its settle delay, in chunk order. -/
theorem write_chunk_invariants (hd : Handle) (dev : Dev) (a : Nat) (data : List Nat)
    (pre post : List (Nat × Nat)) (c : Nat × Nat)
    (hinit : hd.initialized = true)
    (hp : 0 < hd.config.page_size)
    (hrange : a + data.length ≤ hd.config.total_size)
    (hlen : 0 < data.length)
    (hsplit : writeChunks hd.config.page_size a data.length = pre ++ c :: post) :
    c.1 = a + sumSizes pre ∧
    c.2 = min (data.length - sumSizes pre) (hd.config.page_size - c.1 % hd.config.page_size) ∧
    0 < c.2 ∧
    c.1 % hd.config.page_size + c.2 ≤ hd.config.page_size ∧
    sumSizes (writeChunks hd.config.page_size a data.length) = data.length ∧
    chunksContiguousB a (writeChunks hd.config.page_size a data.length) = true ∧
    (at24c256_write (some hd) dev a data).2.2
      = chunkTrace hd.config.write_delay_ms a data
          (writeChunks hd.config.page_size a data.length) := by
  obtain ⟨h1, h2, h3, h4⟩ :=
    writeChunksAux_decomp hd.config.page_size hp data.length a data.length pre c post
      (Nat.le_refl _) hsplit
  refine ⟨h1, h2, h3, h4, ?_, ?_, ?_⟩
  · exact writeChunksAux_sum hd.config.page_size hp data.length a data.length (Nat.le_refl _)
  · exact writeChunksAux_contiguous hd.config.page_size hp data.length a data.length
      (Nat.le_refl _)
  · rw [at24c256_write_ok hd dev a data hinit hp hrange hlen]

/-- C3 witness: the spec's example — page size 64, address 60, 16 bytes —
whose chunk sequence is `[(60, 4), (64, 12)]`; the decomposition exhibits
the first chunk. -/
theorem write_chunk_invariants_witness :
    (hdOk.initialized = true ∧ 0 < hdOk.config.page_size ∧
     60 + (List.range 16).length ≤ hdOk.config.total_size ∧
     0 < (List.range 16).length ∧
     writeChunks hdOk.config.page_size 60 (List.range 16).length
       = [] ++ (60, 4) :: [(64, 12)]) ∧
    ((60, 4).1 = 60 + sumSizes [] ∧
     (60, 4).2 = min ((List.range 16).length - sumSizes [])
       (hdOk.config.page_size - (60, 4).1 % hdOk.config.page_size) ∧
     0 < (60, 4).2 ∧
     (60, 4).1 % hdOk.config.page_size + (60, 4).2 ≤ hdOk.config.page_size ∧
     sumSizes (writeChunks hdOk.config.page_size 60 (List.range 16).length)
       = (List.range 16).length ∧
     chunksContiguousB 60 (writeChunks hdOk.config.page_size 60 (List.range 16).length)
       = true ∧
     (at24c256_write (some hdOk) dev0 60 (List.range 16)).2.2
       = chunkTrace hdOk.config.write_delay_ms 60 (List.range 16)
           (writeChunks hdOk.config.page_size 60 (List.range 16).length)) :=
  ⟨by decide,
   write_chunk_invariants hdOk dev0 60 (List.range 16) [] [(64, 12)] (60, 4)
     (by decide) (by decide) (by decide) (by decide) (by decide)⟩

/-- C6 counterexample: `at24c256_read` on a NULL handle returns
`AT24C256_ERROR_INIT`, not `AT24C256_ERROR_PARAM` — the claim that data
operations on an invalid handle fail with `ParamError` is false. -/
theorem invalid_handle_not_param_counterexample :
    (at24c256_read none dev0 0 1).1 = .einit ∧
    ¬ (at24c256_read none dev0 0 1).1 = .eparam := by decide

/-- C6 amended: every data operation (`read`, `write`, `erase`,
`wait_ready`) invoked on a handle that is NULL or not initialized fails
with `AT24C256_ERROR_INIT` (the `InitError` code), not `ParamError`. -/
theorem ops_on_invalid_handle_init_error
    (h : Option Handle) (dev : Dev) (a len : Nat) (data : List Nat)
    (ready : Nat → Bool) (t : Nat)
    (hbad : handleInvalid h = true) :
    (at24c256_read h dev a len).1 = .einit ∧
    (at24c256_write h dev a data).1 = .einit ∧
    (at24c256_erase h dev a len).1 = .einit ∧
    at24c256_wait_ready h ready t = .einit := by
  match h with
  | none =>
    refine ⟨rfl, rfl, ?_, rfl⟩
    simp only [at24c256_erase, check_address_length]
    rw [if_neg (by decide)]
  | some hd =>
    have hini : hd.initialized = false := by
      simp only [handleInvalid, Bool.not_eq_true'] at hbad
      exact hbad
    have hchk : ∀ l, check_address_length (some hd) a l = .einit := by
      intro l
      simp only [check_address_length]
      rw [if_pos hini]
    refine ⟨?_, ?_, ?_, ?_⟩
    · simp only [at24c256_read]
      rw [hchk, if_neg (by decide)]
    · simp only [at24c256_write]
      rw [hchk, if_neg (by decide)]
    · simp only [at24c256_erase]
      rw [hchk, if_neg (by decide)]
    · simp only [at24c256_wait_ready]
      rw [if_pos hini]

/-- C6 amended witness: all four operations on the NULL handle. -/
theorem ops_on_invalid_handle_init_error_witness :
    handleInvalid none = true ∧
    ((at24c256_read none dev0 0 1).1 = .einit ∧
     (at24c256_write none dev0 0 [1]).1 = .einit ∧
     (at24c256_erase none dev0 0 1).1 = .einit ∧
     at24c256_wait_ready none neverReady 0 = .einit) :=
  ⟨by decide, ops_on_invalid_handle_init_error none dev0 0 1 [1] neverReady 0 (by decide)⟩

/-- C10: `at24c256_strerror` is total and in bounds — every enumerator's
code (0 down to -7) maps to its entry of the eight-string table, and every
other integer (positive, or below -7) maps to the fallback
`"Unknown error"`. -/
theorem strerror_table_safe (e : Err) (i : Int) (hi : 0 < i ∨ i < -7) :
    at24c256_strerror (errCode e) = errDescription e ∧
    at24c256_strerror i = "Unknown error" := by
  constructor
  · cases e <;> rfl
  · simp only [at24c256_strerror]
    rw [if_pos (by omega)]

/-- C10 witness at the out-of-range code 1 and the enumerator
`AT24C256_ERROR_TIMEOUT`. -/
theorem strerror_table_safe_witness :
    ((0 : Int) < 1 ∨ (1 : Int) < -7) ∧
    (at24c256_strerror (errCode .etimeout) = errDescription .etimeout ∧
     at24c256_strerror 1 = "Unknown error") :=
  ⟨Or.inl (by decide), strerror_table_safe .etimeout 1 (Or.inl (by decide))⟩

/-! ### File-index layer lemmas -/

theorem entryBytes_length (fi : FileIndex) : (entryBytes fi).length = ENTRY_SIZE := by
  simp only [entryBytes, le16, ENTRY_SIZE, List.length_append, List.length_replicate,
    List.length_take, List.length_cons, List.length_nil]
  omega

theorem headerBytes_length (files : List FileIndex) :
    (headerBytes files).length = HEADER_SIZE := by
  simp only [headerBytes, le16, HEADER_SIZE, List.length_append, List.length_replicate,
    List.length_cons, List.length_nil]

theorem write_entries_isSome :
    ∀ (files : List FileIndex) (dev : Dev) (addr : Nat),
      addr + ENTRY_SIZE * files.length ≤ 32768 →
      ∃ d, write_entries dev addr files = some d := by
  intro files
  induction files with
  | nil =>
    intro dev addr _
    exact ⟨dev, rfl⟩
  | cons fi rest ih =>
    intro dev addr h
    have h' : addr + 70 * (rest.length + 1) ≤ 32768 := by
      simpa [ENTRY_SIZE] using h
    have hlen : (entryBytes fi).length = 70 := entryBytes_length fi
    have hts : hdOk.config.total_size = 32768 := rfl
    have hw := at24c256_write_ok hdOk dev addr (entryBytes fi) rfl (by decide)
      (by rw [hlen, hts]; omega) (by rw [hlen]; omega)
    simp only [write_entries, okHandle]
    rw [hw]
    exact ih _ (addr + ENTRY_SIZE) (by simp only [ENTRY_SIZE]; omega)

theorem write_file_index_isSome (dev : Dev) (files : List FileIndex)
    (hcount : files.length ≤ MAX_FILES) :
    ∃ d, write_file_index dev files = some d := by
  have hlen : (headerBytes files).length = 16 := headerBytes_length files
  have hw := at24c256_write_ok hdOk dev 0 (headerBytes files) rfl (by decide)
    (by rw [hlen]; decide) (by rw [hlen]; omega)
  simp only [write_file_index, okHandle]
  rw [hw]
  apply write_entries_isSome
  have h16 : files.length ≤ 16 := by simpa [MAX_FILES] using hcount
  simp only [HEADER_SIZE, ENTRY_SIZE]
  omega

theorem process_files_length_le :
    ∀ (blobs : List (List Nat × List Nat)) (dev : Dev) (addr : Nat),
      (process_files dev addr blobs).2.length ≤ blobs.length := by
  intro blobs
  induction blobs with
  | nil =>
    intro dev addr
    exact Nat.le_refl 0
  | cons b rest ih =>
    intro dev addr
    obtain ⟨name, data⟩ := b
    simp only [process_files]
    rcases heq : write_file_to_eeprom dev addr name data with _ | ⟨dev', fi⟩
    · exact Nat.le_trans (ih dev addr) (Nat.le_succ _)
    · simp only [List.length_cons]
      exact Nat.succ_le_succ (ih dev' (addr + fi.size))

theorem process_files_skip (dev : Dev) (a : Nat) (name blob : List Nat)
    (rest : List (List Nat × List Nat))
    (hfail : MAX_FILE_SIZE < blob.length ∨ (at24c256_write okHandle dev a blob).1 ≠ .ok) :
    process_files dev a ((name, blob) :: rest) = process_files dev a rest := by
  have hw : write_file_to_eeprom dev a name blob = none := by
    unfold write_file_to_eeprom
    rcases hfail with hb | hb
    · rw [if_pos hb]
    · by_cases hbig : MAX_FILE_SIZE < blob.length
      · rw [if_pos hbig]
      · rw [if_neg hbig]
        rcases heq : at24c256_write okHandle dev a blob with ⟨r, dev', tr⟩
        rw [heq] at hb
        cases r
        all_goals first
          | exact absurd rfl hb
          | rfl
  conv_lhs => rw [process_files]
  rw [hw]

theorem write_files_none_iff (dev : Dev) (blobs : List (List Nat × List Nat))
    (hcount : blobs.length ≤ MAX_FILES) :
    write_files dev blobs = none ↔ (process_files dev DATA_START blobs).2 = [] := by
  simp only [write_files]
  constructor
  · intro h
    by_contra hne
    have hpos : 0 < (process_files dev DATA_START blobs).2.length :=
      List.length_pos.mpr hne
    rw [if_pos hpos] at h
    obtain ⟨d, hd⟩ := write_file_index_isSome (process_files dev DATA_START blobs).1
      (process_files dev DATA_START blobs).2
      (Nat.le_trans (process_files_length_le blobs dev DATA_START) hcount)
    rw [hd] at h
    simp at h
  · intro h
    have hz : (process_files dev DATA_START blobs).2.length = 0 := by
      rw [h]
      rfl
    rw [if_neg (by omega)]

/-- C4 counterexample: for the input `[("a", [0x01]), ("b", [])]` the
second blob's write fails (`write_file_to_eeprom` yields `none`: the
driver rejects the zero-length write), yet the whole operation succeeds —
the directory is written and indexes exactly the one successful blob —
contradicting "the whole operation fails and the directory is not
written". -/
theorem write_files_failure_counterexample :
    write_file_to_eeprom ((process_files dev0 DATA_START [([97], [1])]).1)
        (DATA_START + 1) [98] [] = none ∧
    (process_files dev0 DATA_START [([97], [1]), ([98], [])]).2.length = 1 ∧
    (write_files dev0 [([97], [1]), ([98], [])]).isSome = true :=
  ⟨rfl, by decide, by decide⟩

/-- C4 amended: a blob that exceeds `MAX_FILE_SIZE` or whose driver write
fails is skipped — it produces no directory entry, the device and the
current address are left as they were, and the remaining blobs are still
processed; the operation as a whole fails without writing the directory
exactly when no blob at all succeeds (for inputs within the `MAX_FILES`
bound of the C directory array). -/
theorem write_files_failure_handling
    (dev dev2 : Dev) (a : Nat) (name blob : List Nat)
    (rest blobs2 : List (List Nat × List Nat))
    (hfail : MAX_FILE_SIZE < blob.length ∨ (at24c256_write okHandle dev a blob).1 ≠ .ok)
    (hcount : blobs2.length ≤ MAX_FILES) :
    process_files dev a ((name, blob) :: rest) = process_files dev a rest ∧
    (write_files dev2 blobs2 = none ↔ (process_files dev2 DATA_START blobs2).2 = []) :=
  ⟨process_files_skip dev a name blob rest hfail, write_files_none_iff dev2 blobs2 hcount⟩

/-- C4 amended witness: the zero-length blob `("b", [])` is skipped, and a
one-blob input yields `none` exactly when its entry list is empty. -/
theorem write_files_failure_handling_witness :
    ((MAX_FILE_SIZE < ([] : List Nat).length ∨
      (at24c256_write okHandle dev0 DATA_START []).1 ≠ .ok) ∧
     [([97], [1])].length ≤ MAX_FILES) ∧
    (process_files dev0 DATA_START (([98], []) :: [([97], [1])])
       = process_files dev0 DATA_START [([97], [1])] ∧
     (write_files dev0 [([97], [1])] = none ↔
      (process_files dev0 DATA_START [([97], [1])]).2 = [])) :=
  ⟨⟨Or.inr (by decide), by decide⟩,
   write_files_failure_handling dev0 dev0 DATA_START [98] [] [([97], [1])] [([97], [1])]
     (Or.inr (by decide)) (by decide)⟩

/-- C5 counterexample: on the empty input list the index-writing operation
reports failure and writes nothing — no header, no entries — rather than
succeeding with an empty directory whose header has count 0. -/
theorem write_files_empty_counterexample :
    write_files dev0 [] = none ∧ process_files dev0 DATA_START [] = (dev0, []) :=
  ⟨rfl, rfl⟩

/-- C5 amended: `write_files` applied to an empty input list performs no
payload processing, leaves the device untouched, writes no directory, and
reports failure (`none`); no header with entry count 0 is ever
serialized. -/
theorem write_files_empty (dev : Dev) :
    write_files dev [] = none ∧ process_files dev DATA_START [] = (dev, []) :=
  ⟨rfl, rfl⟩

/-! ### XOR checksum lemmas -/

/-- The XOR fold without the byte reduction; equal to
`calculate_checksum` on byte-valued input. -/
def pureXor (l : List Nat) : Nat :=
  l.foldl (· ^^^ ·) 0

theorem foldl_xor_shift :
    ∀ (l : List Nat) (a : Nat), l.foldl (· ^^^ ·) a = a ^^^ pureXor l := by
  intro l
  induction l with
  | nil =>
    intro a
    simp [pureXor]
  | cons x xs ih =>
    intro a
    simp only [List.foldl_cons, pureXor]
    rw [ih (a ^^^ x), ih (0 ^^^ x), Nat.zero_xor, Nat.xor_assoc]

theorem xor_byte_lt (x y : Nat) (hx : x < 256) (hy : y < 256) : x ^^^ y < 256 := by
  have h : (256 : Nat) = 2 ^ 8 := by norm_num
  rw [h] at hx hy ⊢
  exact Nat.xor_lt_two_pow hx hy

theorem checksum_eq_pureXor_aux :
    ∀ (l : List Nat) (acc : Nat), (∀ b ∈ l, b < 256) → acc < 256 →
      l.foldl (fun c b => (c ^^^ b) % 256) acc = l.foldl (· ^^^ ·) acc := by
  intro l
  induction l with
  | nil =>
    intro acc _ _
    rfl
  | cons x xs ih =>
    intro acc hb hacc
    simp only [List.foldl_cons]
    have hx : x < 256 := hb x (List.mem_cons_self _ _)
    have hxor : acc ^^^ x < 256 := xor_byte_lt _ _ hacc hx
    rw [Nat.mod_eq_of_lt hxor]
    exact ih _ (fun b hbm => hb b (List.mem_cons_of_mem _ hbm)) hxor

theorem checksum_eq_pureXor (l : List Nat) (hb : ∀ b ∈ l, b < 256) :
    calculate_checksum l = pureXor l :=
  checksum_eq_pureXor_aux l 0 hb (by omega)

theorem pureXor_cons (x : Nat) (xs : List Nat) :
    pureXor (x :: xs) = x ^^^ pureXor xs := by
  show xs.foldl (· ^^^ ·) (0 ^^^ x) = x ^^^ pureXor xs
  rw [foldl_xor_shift, Nat.zero_xor]

theorem pureXor_set :
    ∀ (l : List Nat) (i new : Nat), i < l.length →
      pureXor (l.set i new) = pureXor l ^^^ l.getD i 0 ^^^ new := by
  intro l
  induction l with
  | nil =>
    intro i new h
    exact absurd h (Nat.not_lt_zero i)
  | cons x xs ih =>
    intro i new h
    cases i with
    | zero =>
      show pureXor (new :: xs) = pureXor (x :: xs) ^^^ (x :: xs).getD 0 0 ^^^ new
      rw [pureXor_cons, pureXor_cons, show (x :: xs).getD 0 0 = x from rfl]
      rw [Nat.xor_comm x (pureXor xs), Nat.xor_cancel_right, Nat.xor_comm]
    | succ i =>
      have hlt : i < xs.length := by
        simpa using h
      show pureXor (x :: xs.set i new) = pureXor (x :: xs) ^^^ (x :: xs).getD (i + 1) 0 ^^^ new
      rw [pureXor_cons, pureXor_cons, ih i new hlt,
        show (x :: xs).getD (i + 1) 0 = xs.getD i 0 from rfl]
      simp [Nat.xor_assoc]

theorem checksum_flip_ne (l : List Nat) (i new : Nat)
    (hi : i < l.length) (hb : ∀ b ∈ l, b < 256) (hnew : new < 256)
    (hne : new ≠ l.getD i 0) :
    calculate_checksum (l.set i new) ≠ calculate_checksum l := by
  have hb' : ∀ b ∈ l.set i new, b < 256 := by
    intro b hbm
    rcases List.mem_or_eq_of_mem_set hbm with h | h
    · exact hb b h
    · subst h
      exact hnew
  rw [checksum_eq_pureXor _ hb', checksum_eq_pureXor _ hb, pureXor_set l i new hi]
  intro hcontra
  rw [Nat.xor_assoc] at hcontra
  have h0 : pureXor l ^^^ (l.getD i 0 ^^^ new) = pureXor l ^^^ 0 := by
    rw [hcontra, Nat.xor_zero]
  have h1 : l.getD i 0 ^^^ new = 0 := Nat.xor_right_inj.mp h0
  exact hne (Nat.xor_eq_zero.mp h1).symm

/-! ### Single-byte corruption lemmas -/

theorem readBytes_corruptAt_in (dev : Dev) (addr size pos b : Nat)
    (h1 : addr ≤ pos) (_h2 : pos < addr + size) :
    readBytes (corruptAt dev pos b) addr size
      = (readBytes dev addr size).set (pos - addr) b := by
  apply List.ext_getElem
  · simp [readBytes]
  · intro j hj1 hj2
    rw [List.getElem_set]
    simp only [readBytes, List.getElem_map, List.getElem_range]
    have hj : j < size := by
      simpa [readBytes] using hj1
    by_cases hc : pos - addr = j
    · rw [if_pos hc]
      have hpj : addr + j = pos := by omega
      simp [corruptAt, hpj]
    · rw [if_neg hc]
      have hpj : addr + j ≠ pos := by omega
      simp [corruptAt, hpj]

theorem readBytes_corruptAt_out (dev : Dev) (addr size pos b : Nat)
    (h : pos < addr ∨ addr + size ≤ pos) :
    readBytes (corruptAt dev pos b) addr size = readBytes dev addr size := by
  apply readBytes_congr
  intro i hi
  have hne : addr + i ≠ pos := by omega
  simp [corruptAt, hne]

theorem readBytes_getD (dev : Dev) (addr len i : Nat) (h : i < len) :
    (readBytes dev addr len).getD i 0 = dev (addr + i) := by
  rw [List.getD_eq_getElem _ _ (by simpa [readBytes] using h)]
  simp [readBytes]

theorem readBytes_bytes_lt (dev : Dev) (addr len : Nat)
    (h : ∀ i, i < len → dev (addr + i) < 256) :
    ∀ x ∈ readBytes dev addr len, x < 256 := by
  intro x hx
  simp only [readBytes, List.mem_map, List.mem_range] at hx
  obtain ⟨i, hi, rfl⟩ := hx
  exact h i hi

theorem read_file_success (dev : Dev) (e : FileIndex)
    (hv : e.address + e.size ≤ 32768) (hs : 0 < e.size)
    (hcs : calculate_checksum (readBytes dev e.address e.size) = e.checksum) :
    read_file_from_eeprom dev e = .success (readBytes dev e.address e.size) := by
  simp only [read_file_from_eeprom, okHandle]
  rw [at24c256_read_ok hdOk dev e.address e.size rfl
    (by rw [show hdOk.config.total_size = 32768 from rfl]; exact hv) hs]
  simp only
  rw [if_pos hcs]

theorem read_file_corrupted (dev : Dev) (e : FileIndex) (pos b : Nat)
    (hv : e.address + e.size ≤ 32768) (hs : 0 < e.size)
    (hcs : calculate_checksum (readBytes dev e.address e.size) = e.checksum)
    (hbytes : ∀ i, i < e.size → dev (e.address + i) < 256)
    (hpos1 : e.address ≤ pos) (hpos2 : pos < e.address + e.size)
    (hb : b < 256) (hdiff : b ≠ dev pos) :
    read_file_from_eeprom (corruptAt dev pos b) e = .checksumError := by
  simp only [read_file_from_eeprom, okHandle]
  rw [at24c256_read_ok hdOk _ e.address e.size rfl
    (by rw [show hdOk.config.total_size = 32768 from rfl]; exact hv) hs]
  simp only
  rw [readBytes_corruptAt_in dev e.address e.size pos b hpos1 hpos2]
  rw [if_neg]
  rw [← hcs]
  apply checksum_flip_ne
  · rw [readBytes_length]
    omega
  · exact readBytes_bytes_lt dev e.address e.size hbytes
  · exact hb
  · rw [readBytes_getD dev e.address e.size (pos - e.address) (by omega)]
    have hpp : e.address + (pos - e.address) = pos := by omega
    rw [hpp]
    exact hdiff

theorem successCount_append (l1 l2 : List FileReadResult) :
    successCount (l1 ++ l2) = successCount l1 + successCount l2 := by
  simp [successCount, List.countP_append]

theorem successCount_cons_checksumError (l : List FileReadResult) :
    successCount (.checksumError :: l) = successCount l := by
  simp [successCount, List.countP_cons]

theorem successCount_cons_success (d : List Nat) (l : List FileReadResult) :
    successCount (.success d :: l) = successCount l + 1 := by
  simp [successCount, List.countP_cons]

theorem successCount_map_success (l : List FileIndex) (g : FileIndex → List Nat) :
    successCount (l.map fun e => FileReadResult.success (g e)) = l.length := by
  induction l with
  | nil => rfl
  | cons e rest ih =>
    rw [List.map_cons, successCount_cons_success, ih, List.length_cons]

/-- C8: `read_files` recomputes each entry's checksum as the XOR fold of
the payload bytes seeded at zero (`[1,2,3] ↦ 0`, `[4,5] ↦ 1`); for any
consistent stored file set with pairwise-separated payloads, corrupting
exactly one on-device payload byte of the entry `ek` makes that file —
and only that file — fail with the checksum error, while every other file
is still returned with its original bytes and counted as a success. -/
theorem read_files_single_corruption
    (dev : Dev) (pre post : List FileIndex) (ek : FileIndex) (pos newByte : Nat)
    (hvalid : ∀ e ∈ pre ++ ek :: post, e.address + e.size ≤ 32768 ∧ 0 < e.size)
    (hbytes : ∀ e ∈ pre ++ ek :: post, ∀ i, i < e.size → dev (e.address + i) < 256)
    (hcs : ∀ e ∈ pre ++ ek :: post,
      calculate_checksum (readBytes dev e.address e.size) = e.checksum)
    (hpos : ek.address ≤ pos ∧ pos < ek.address + ek.size)
    (hnew : newByte < 256)
    (hdiff : newByte ≠ dev pos)
    (hdisj : ∀ e ∈ pre ++ post, pos < e.address ∨ e.address + e.size ≤ pos) :
    calculate_checksum [1, 2, 3] = 0 ∧
    calculate_checksum [4, 5] = 1 ∧
    read_file_from_eeprom (corruptAt dev pos newByte) ek = .checksumError ∧
    read_files (corruptAt dev pos newByte) (pre ++ ek :: post)
      = pre.map (fun e => FileReadResult.success (readBytes dev e.address e.size))
        ++ FileReadResult.checksumError
          :: post.map (fun e => FileReadResult.success (readBytes dev e.address e.size)) ∧
    successCount (read_files (corruptAt dev pos newByte) (pre ++ ek :: post))
      = pre.length + post.length := by
  have hekmem : ek ∈ pre ++ ek :: post :=
    List.mem_append_right _ (List.mem_cons_self _ _)
  have hcorr : read_file_from_eeprom (corruptAt dev pos newByte) ek = .checksumError :=
    read_file_corrupted dev ek pos newByte (hvalid ek hekmem).1 (hvalid ek hekmem).2
      (hcs ek hekmem) (hbytes ek hekmem) hpos.1 hpos.2 hnew hdiff
  have hclean : ∀ e ∈ pre ++ post,
      read_file_from_eeprom (corruptAt dev pos newByte) e
        = .success (readBytes dev e.address e.size) := by
    intro e he
    have hmem : e ∈ pre ++ ek :: post := by
      rcases List.mem_append.mp he with h | h
      · exact List.mem_append_left _ h
      · exact List.mem_append_right _ (List.mem_cons_of_mem _ h)
    have hout : readBytes (corruptAt dev pos newByte) e.address e.size
        = readBytes dev e.address e.size :=
      readBytes_corruptAt_out dev e.address e.size pos newByte (hdisj e he)
    have hsucc := read_file_success (corruptAt dev pos newByte) e (hvalid e hmem).1
      (hvalid e hmem).2 (by rw [hout]; exact hcs e hmem)
    rw [hout] at hsucc
    exact hsucc
  have hmapeq : read_files (corruptAt dev pos newByte) (pre ++ ek :: post)
      = pre.map (fun e => FileReadResult.success (readBytes dev e.address e.size))
        ++ FileReadResult.checksumError
          :: post.map (fun e => FileReadResult.success (readBytes dev e.address e.size)) := by
    simp only [read_files, List.map_append, List.map_cons]
    rw [hcorr]
    congr 1
    · exact List.map_congr_left fun e he => hclean e (List.mem_append_left _ he)
    · congr 1
      exact List.map_congr_left fun e he =>
        hclean e (List.mem_append_right _ he)
  refine ⟨by decide, by decide, hcorr, hmapeq, ?_⟩
  rw [hmapeq, successCount_append, successCount_cons_checksumError,
    successCount_map_success, successCount_map_success]

/-- C8 witness: the spec's two-blob layout — `[1,2,3]` (checksum 0) at
1136 and `[4,5]` (checksum 1) at 1139 — with the byte at 1137 flipped
from 2 to 9: the first file fails the checksum, the second is returned
intact. -/
theorem read_files_single_corruption_witness :
    ((∀ e ∈ ([] : List FileIndex)
          ++ ⟨[97], 1136, 3, 0⟩ :: [(⟨[98], 1139, 2, 1⟩ : FileIndex)],
        e.address + e.size ≤ 32768 ∧ 0 < e.size) ∧
     (∀ e ∈ ([] : List FileIndex)
          ++ ⟨[97], 1136, 3, 0⟩ :: [(⟨[98], 1139, 2, 1⟩ : FileIndex)],
        ∀ i, i < e.size → storeBytes dev0 1136 [1, 2, 3, 4, 5] (e.address + i) < 256) ∧
     (∀ e ∈ ([] : List FileIndex)
          ++ ⟨[97], 1136, 3, 0⟩ :: [(⟨[98], 1139, 2, 1⟩ : FileIndex)],
        calculate_checksum
          (readBytes (storeBytes dev0 1136 [1, 2, 3, 4, 5]) e.address e.size)
          = e.checksum) ∧
     ((1136 : Nat) ≤ 1137 ∧ (1137 : Nat) < 1136 + 3) ∧
     (9 : Nat) < 256 ∧
     (9 : Nat) ≠ storeBytes dev0 1136 [1, 2, 3, 4, 5] 1137 ∧
     (∀ e ∈ ([] : List FileIndex) ++ [(⟨[98], 1139, 2, 1⟩ : FileIndex)],
        1137 < e.address ∨ e.address + e.size ≤ 1137)) ∧
    (calculate_checksum [1, 2, 3] = 0 ∧
     calculate_checksum [4, 5] = 1 ∧
     read_file_from_eeprom (corruptAt (storeBytes dev0 1136 [1, 2, 3, 4, 5]) 1137 9)
         ⟨[97], 1136, 3, 0⟩ = .checksumError ∧
     read_files (corruptAt (storeBytes dev0 1136 [1, 2, 3, 4, 5]) 1137 9)
         (([] : List FileIndex)
           ++ ⟨[97], 1136, 3, 0⟩ :: [(⟨[98], 1139, 2, 1⟩ : FileIndex)])
       = ([] : List FileIndex).map
           (fun e => FileReadResult.success
             (readBytes (storeBytes dev0 1136 [1, 2, 3, 4, 5]) e.address e.size))
         ++ FileReadResult.checksumError
           :: [(⟨[98], 1139, 2, 1⟩ : FileIndex)].map
             (fun e => FileReadResult.success
               (readBytes (storeBytes dev0 1136 [1, 2, 3, 4, 5]) e.address e.size)) ∧
     successCount (read_files (corruptAt (storeBytes dev0 1136 [1, 2, 3, 4, 5]) 1137 9)
         (([] : List FileIndex)
           ++ ⟨[97], 1136, 3, 0⟩ :: [(⟨[98], 1139, 2, 1⟩ : FileIndex)]))
       = ([] : List FileIndex).length + [(⟨[98], 1139, 2, 1⟩ : FileIndex)].length) :=
  ⟨⟨by decide, by decide, by decide, by decide, by decide, by decide, by decide⟩,
   read_files_single_corruption (storeBytes dev0 1136 [1, 2, 3, 4, 5])
     [] [⟨[98], 1139, 2, 1⟩] ⟨[97], 1136, 3, 0⟩ 1137 9
     (by decide) (by decide) (by decide) (by decide) (by decide) (by decide) (by decide)⟩

end AT24

